import Mathlib

/-!
# Verification of the csml-engine core against its design specification

This file gives a shallow embedding, in Lean 4, of the parts of the
repository relevant to the frozen claims:

* `src/csml_engine/src/db_connectors/dynamodb/utils.rs`
  (`make_range`, `execute_batch_write_query`, `execute_batch_get_query`);
* `src/src/parser.rs` (`create_flow_from_instructions`, `Parser::parse_flow`);
* `src/src/parser/parse_for_loop.rs` (`parse_for`);
* `src/csml_interpreter/tests/hold.rs` (the expected outputs of the
  suspend/resume tests, embedded as data);
* the execution engine (the `csml_interpreter` crate itself is not among
  the provided sources; it is modelled from the design specification where
  a claim needs it).

Machine integers: the Rust code uses `u64` millisecond quantities that stay
far below `2^64` (all constants are ≤ 600 000 and the loop counters are
bounded by the length of the modelled call trace), so they are embedded as
`Nat` without explicit wrap-around.
-/

namespace CsmlSpec

/- ================================================================
   Section 1: dynamodb/utils.rs
   ================================================================ -/

/-- `RETRY_BASE` from dynamodb/utils.rs: the backoff base, in milliseconds. -/
def RETRY_BASE : Nat := 500

/-- `MAX_INTERVAL_LIMIT` from dynamodb/utils.rs: cap on one backoff interval. -/
def MAX_INTERVAL_LIMIT : Nat := 60000

/-- `MAX_ELAPSED_TIME_MILLIS` from dynamodb/utils.rs: total elapsed-time ceiling. -/
def MAX_ELAPSED_TIME_MILLIS : Nat := 600000

/-- One step of `make_range`'s accumulation loop (dynamodb/utils.rs, lines
57-62): append `"#"` to the accumulator when it is non-empty, then append
the component. -/
def make_range_step (res arg : String) : String :=
  (if res.length > 0 then res ++ "#" else res) ++ arg

/-- `make_range` from dynamodb/utils.rs: build a range key from the ordered
list of components, folding `make_range_step` over them starting from `""`. -/
def make_range (args : List String) : String :=
  args.foldl make_range_step ""

/-- Concatenation of a list of strings (used to phrase "the concatenation of
all preceding components" in claims about `make_range`). -/
def concatAll (args : List String) : String :=
  args.foldl (fun a b => a ++ b) ""

/-- A standard `'#'`-join: one `"#"` between any two consecutive components,
including empty ones.  This follows the specification's words ("joining an
ordered list of string components with `#`") and is compared against the
source-derived `make_range`. -/
def joinHash : List String → String
  | [] => ""
  | [a] => a
  | a :: b :: rest => a ++ "#" ++ joinHash (b :: rest)

/-- The `'#'`-prefixed tail of a join: `"#a1#a2…#an"`.  Helper for relating
`make_range` to `joinHash`. -/
def hashTail : List String → String
  | [] => ""
  | a :: rest => "#" ++ a ++ hashTail rest

/-- Outcome of one underlying `batch_write_item` call, as distinguished by
`execute_batch_write_query` (dynamodb/utils.rs, lines 78-99). -/
inductive WriteCallResult where
  | ok
  | provisionedThroughputExceeded (err : String)
  | otherError (err : String)
deriving DecidableEq, Repr

/-- The error type returned by `execute_batch_write_query`
(`RusotoError<BatchWriteItemError>` restricted to the shapes the function
can return). -/
inductive WriteQueryError where
  | provisionedThroughputExceeded (err : String)
  | other (err : String)
deriving DecidableEq, Repr

/-- `execute_batch_write_query` from dynamodb/utils.rs (lines 69-102).

The effectful parts are made explicit:
* `rng k b` is the value `rng.gen_range(0..b)` drawn at the `k`-th loop
  iteration (0-based); theorems about the function assume `rng k b < b`,
  which is the contract of `gen_range`;
* `elapsed k` is the reading of `now.elapsed()` (in milliseconds) at the
  `k`-th iteration's post-sleep ceiling check;
* the list argument is the trace of outcomes of the successive
  `batch_write_item` calls; `k` is the 0-based iteration counter, so the
  source's `retry_times` (initialised to 1 and incremented at the end of
  every iteration) equals `k + 1`.

The result pairs the function's return value (`none` when the modelled call
trace is exhausted while the source loop would keep running) with the list
of sleep durations performed, in order. -/
def execute_batch_write_query (rng : Nat → Nat → Nat) (elapsed : Nat → Nat) :
    List WriteCallResult → Nat → Option (Except WriteQueryError Unit) × List Nat
  | [], _ => (none, [])
  | r :: rs, k =>
    match r with
    | .ok => (some (.ok ()), [])
    | .otherError e => (some (.error (.other e)), [])
    | .provisionedThroughputExceeded e =>
      let retry_times := k + 1
      let interval := min MAX_INTERVAL_LIMIT (RETRY_BASE * 2 * retry_times)
      let interval_jitter := rng k interval
      if MAX_ELAPSED_TIME_MILLIS ≤ elapsed k then
        (some (.error (.provisionedThroughputExceeded e)), [interval_jitter])
      else
        let rest := execute_batch_write_query rng elapsed rs (k + 1)
        (rest.1, interval_jitter :: rest.2)

/-- The backoff interval computed at a given value of `retry_times`
(dynamodb/utils.rs, lines 85 and 149). -/
def backoffInterval (retry_times : Nat) : Nat :=
  min MAX_INTERVAL_LIMIT (RETRY_BASE * 2 * retry_times)

/-- The error type returned by `execute_batch_get_query` (`EngineError`
restricted to the shapes the function can return: the two converted
`RusotoError<BatchGetItemError>` shapes, plus decode/decrypt failures,
which in the source are the distinct `EngineError` variants produced by
`serde_dynamodb::from_hashmap` and `decrypt_data`). -/
inductive GetEngineError where
  | provisionedThroughputExceeded (err : String)
  | other (err : String)
  | decodeError (err : String)
deriving DecidableEq, Repr

/-- Outcome of one underlying `batch_get_item` call, as distinguished by
`execute_batch_get_query` (dynamodb/utils.rs, lines 116-163).  A successful
call carries `output.responses`: an optional map from table name to item
list, embedded as an association list; `Item` is the backend item type
(`HashMap<String, AttributeValue>`), kept abstract. -/
inductive GetCallResult (Item : Type) where
  | ok (responses : Option (List (String × List Item)))
  | provisionedThroughputExceeded (err : String)
  | otherError (err : String)

/-- Decode one table's item list (the inner `for item in item` loop of
dynamodb/utils.rs, lines 126-142): each item is decoded and its payload
decrypted — both external transforms, abstracted by `decode` — and a
failure of either propagates. -/
def decodeItemList {Item Json : Type} (decode : Item → Except String Json) :
    List Item → Except GetEngineError (List Json)
  | [] => .ok []
  | it :: rest =>
    match decode it with
    | .error e => .error (.decodeError e)
    | .ok j =>
      match decodeItemList decode rest with
      | .error e => .error e
      | .ok js => .ok (j :: js)

/-- Decode the whole response map (the outer `for (_, item) in items` loop of
dynamodb/utils.rs, lines 125-143). -/
def decodeAllItems {Item Json : Type} (decode : Item → Except String Json) :
    List (String × List Item) → Except GetEngineError (List Json)
  | [] => .ok []
  | (_, l) :: rest =>
    match decodeItemList decode l with
    | .error e => .error e
    | .ok a =>
      match decodeAllItems decode rest with
      | .error e => .error e
      | .ok b => .ok (a ++ b)

/-- The `Ok(output)` branch of `execute_batch_get_query` (dynamodb/utils.rs,
lines 117-145): an absent `responses` field or an empty response map yields
`Ok(vec![])`; otherwise every item is decoded. -/
def processGetResponses {Item Json : Type} (decode : Item → Except String Json)
    (responses : Option (List (String × List Item))) :
    Except GetEngineError (List Json) :=
  match responses with
  | none => .ok []
  | some items =>
    if items.length = 0 then .ok []
    else decodeAllItems decode items

/-- `execute_batch_get_query` from dynamodb/utils.rs (lines 107-167),
with the same modelling conventions as `execute_batch_write_query`. -/
def execute_batch_get_query {Item Json : Type} (decode : Item → Except String Json)
    (rng : Nat → Nat → Nat) (elapsed : Nat → Nat) :
    List (GetCallResult Item) → Nat →
      Option (Except GetEngineError (List Json)) × List Nat
  | [], _ => (none, [])
  | r :: rs, k =>
    match r with
    | .ok responses => (some (processGetResponses decode responses), [])
    | .otherError e => (some (.error (.other e)), [])
    | .provisionedThroughputExceeded e =>
      let retry_times := k + 1
      let interval := min MAX_INTERVAL_LIMIT (RETRY_BASE * 2 * retry_times)
      let interval_jitter := rng k interval
      if MAX_ELAPSED_TIME_MILLIS ≤ elapsed k then
        (some (.error (.provisionedThroughputExceeded e)), [interval_jitter])
      else
        let rest := execute_batch_get_query decode rng elapsed rs (k + 1)
        (rest.1, interval_jitter :: rest.2)

/- ================================================================
   Section 2: parser.rs and parser/parse_for_loop.rs
   ================================================================ -/

/-- A line/column source position (`Interval` from the parser's error data). -/
structure Interval where
  line : Nat
  column : Nat
deriving DecidableEq, Repr

/-- `RangeInterval {start, end}` from the parser AST: the source span of a
node.  (`end` is a reserved word in Lean, so the field is `end_`.) -/
structure RangeInterval where
  start : Interval
  end_ : Interval
deriving DecidableEq, Repr

/-- An identifier as returned by `parse_ident` (parser.rs uses its `.ident`
field; the surrounding struct of the `ast` module is not among the provided
sources, so only that field is modelled). -/
structure Ident where
  ident : String
deriving DecidableEq, Repr

/-- `BlockType` of the AST's `Expr::Block` nodes; parser.rs line 98 uses
`BlockType::Step`. -/
inductive BlockType where
  | step
deriving DecidableEq, Repr

/-- Modelled from the spec: the AST node type `Expr` (the `ast` module is not
among the provided sources).  Per the data model, `Expr` is a "variant over
instruction kinds including sequential blocks, loops (`ForExpr`: loop
variable(s), iterable expression, body block, source interval),
conditionals, literals, variable references"; the constructors below are the
ones the provided parser sources build (`Expr::Block` in parser.rs line 97,
`Expr::ForExpr` in parse_for_loop.rs line 32) plus a literal constructor so
that iterable expressions can be exercised on concrete inputs. -/
inductive Expr where
  | block (block_type : BlockType) (arg : List Expr) (range : RangeInterval)
  | forExpr (ident : Ident) (opt : Option Ident) (iter : Expr)
      (scope : List Expr) (range : RangeInterval)
  | lit (value : String)

/-- `InstructionType` from the parser AST: the start-flow marker or a named
step (parser.rs lines 86 and 96). -/
inductive InstructionType where
  | startFlow
  | normalStep (name : String)
deriving DecidableEq, Repr

/-- `Instruction` from the parser AST: an `InstructionType` with its `Expr`
body (parser.rs lines 86, 95). -/
structure Instruction where
  instruction_type : InstructionType
  actions : Expr

/-- `Flow`: the map from `InstructionType` to `Expr` built by
`create_flow_from_instructions` (parser.rs lines 44-49).  The source's
`HashMap` is embedded as the association list of its insertion pairs. -/
structure Flow where
  flow_instructions : List (InstructionType × Expr)

/-- Modelled from the spec: `ParserErrorType` lives in the `error_format`
module, which is not among the provided sources; only the
`StepDuplicateError` discriminant (parser.rs line 38) is needed, plus a
generic carrier for the other discriminants. -/
inductive ParserErrorType where
  | stepDuplicateError
  | otherParserError (code : Nat)
deriving DecidableEq, Repr

/-- The nom `ErrorKind` as used by parser.rs: either
`ErrorKind::Custom(ParserErrorType as u32)` or one of nom's built-in kinds
(kept abstract by name). -/
inductive ErrorKind where
  | custom (t : ParserErrorType)
  | nomBuiltin (name : String)
deriving DecidableEq, Repr

/-- `ErrorInfo`: a positioned parse error (interval plus message), as built
directly in parser.rs lines 73-76. -/
structure ErrorInfo where
  interval : Interval
  message : String
deriving DecidableEq, Repr

/-- Modelled from the spec: `format_error` lives in the `error_format`
module, which is not among the provided sources.  Per the specification it
converts an error kind into an `ErrorInfo` "carrying the offending token's
line/column and an error code"; the rendering of the code into the message
string is unspecified, so it is modelled as a fixed injective rendering. -/
def renderErrorKind : ErrorKind → String
  | .custom .stepDuplicateError => "Step duplicate"
  | .custom (.otherParserError n) => "Parser error " ++ toString n
  | .nomBuiltin name => "Nom error " ++ name

/-- Modelled from the spec: `format_error(interval, code)` builds the
positioned `ErrorInfo` for an error kind (see `renderErrorKind`). -/
def format_error (interval : Interval) (code : ErrorKind) : ErrorInfo :=
  { interval := interval, message := renderErrorKind code }

/-- The duplicate scan of `create_flow_from_instructions` (parser.rs lines
31-42): the source walks the instruction list with an iterator and, for each
element, scans the remainder of the list for an equal `instruction_type`,
returning the error at the first hit. -/
def dupScan : List Instruction → Bool
  | [] => false
  | val :: rest =>
    rest.any (fun val2 => decide (val.instruction_type = val2.instruction_type))
      || dupScan rest

/-- `create_flow_from_instructions` from parser.rs (lines 30-50): fail with
`StepDuplicateError` at interval (0,0) when two instructions share an
`instruction_type`, and otherwise build the `Flow` map from the
(type, actions) pairs. -/
def create_flow_from_instructions (instructions : List Instruction) :
    Except ErrorInfo Flow :=
  if dupScan instructions then
    .error (format_error { line := 0, column := 0 }
      (.custom .stepDuplicateError))
  else
    .ok { flow_instructions :=
      instructions.map (fun elem => (elem.instruction_type, elem.actions)) }

/-- The error side of nom's parse result, as matched by `Parser::parse_flow`
(parser.rs lines 58-77): `Err::Error` and `Err::Failure` carry a
`Context::Code(span, code)` whose span exposes a line and a column;
`Err::Incomplete` carries only nom's "needed bytes" count (`none` for
`Needed::Unknown`) and no position. -/
inductive NomErr where
  | error (line : Nat) (column : Nat) (code : ErrorKind)
  | failure (line : Nat) (column : Nat) (code : ErrorKind)
  | incomplete (needed : Option Nat)
deriving DecidableEq, Repr

/-- `Parser::parse_flow` from parser.rs (lines 55-79), as a function of the
outcome of `start_parsing` (the grammar layer itself is an external
collaborator built from the `tools`/`parse_scope`/... modules, which are not
among the provided sources): a successful parse goes through
`create_flow_from_instructions`; positioned nom errors go through
`format_error` at the offending span; an incomplete-input condition becomes
the fixed `ErrorInfo` with interval (0,0) and message `"Incomplete"`. -/
def parse_flow (start_parsing_result : Except NomErr (List Instruction)) :
    Except ErrorInfo Flow :=
  match start_parsing_result with
  | .ok instructions => create_flow_from_instructions instructions
  | .error (.error line column code) =>
    .error (format_error { line := line, column := column } code)
  | .error (.failure line column code) =>
    .error (format_error { line := line, column := column } code)
  | .error (.incomplete _) =>
    .error { interval := { line := 0, column := 0 }, message := "Incomplete" }

/-- A nom-style combinator over an abstract input type `σ`: consume a prefix
of the input, returning the remaining input and a value, or fail. -/
def NomP (σ α : Type) : Type := σ → Option (σ × α)

/-- The `opt!(do_parse!(tag!(COMMA) >> parse_ident))` step of `parse_for`
(parse_for_loop.rs, lines 18-24): try a comma followed by an identifier;
on success consume both and return the identifier, otherwise consume
nothing and return `none` (nom's `opt!` backtracks to the pre-`opt!`
input on failure). -/
def parse_for_opt {σ : Type} (tagComma : NomP σ Unit)
    (parseIdent : NomP σ Ident) (s4 : σ) : σ × Option Ident :=
  match tagComma s4 with
  | some (sc, _) =>
    match parseIdent sc with
    | some (sv, var) => (sv, some var)
    | none => (s4, none)
  | none => (s4, none)

/-- `parse_for` from parse_for_loop.rs (lines 12-39).  The sub-parsers it
composes (`tag!` of the five tokens, `get_interval`, `parse_ident`,
`parse_as_variable`, `parse_var_expr`, `parse_scope`) live in modules that
are not among the provided sources, so they are taken as parameters; the
`comment!`-wrapping of the token parsers is folded into the corresponding
parameter.  The chain is the source's `do_parse!` sequence: `foreach`,
capture `start`, `(`, identifier, optional `, identifier`, `)`, `in`, the
iterable (`parse_as_variable`, else `parse_var_expr` — nom's `alt!`),
the scoped block, capture `end`, and build
`Expr::ForExpr(ident, opt, expr, block, RangeInterval{start, end})`. -/
def parse_for {σ : Type}
    (tagForeach tagLParen tagRParen tagComma tagIn : NomP σ Unit)
    (getInterval : NomP σ Interval) (parseIdent : NomP σ Ident)
    (parseAsVariable parseVarExpr : NomP σ Expr)
    (parseScope : NomP σ (List Expr)) : NomP σ Expr :=
  fun s0 =>
  match tagForeach s0 with
  | none => none
  | some (s1, _) =>
  match getInterval s1 with
  | none => none
  | some (s2, start) =>
  match tagLParen s2 with
  | none => none
  | some (s3, _) =>
  match parseIdent s3 with
  | none => none
  | some (s4, ident) =>
  match parse_for_opt tagComma parseIdent s4 with
  | (s5, opt) =>
  match tagRParen s5 with
  | none => none
  | some (s6, _) =>
  match tagIn s6 with
  | none => none
  | some (s7, _) =>
  match (match parseAsVariable s7 with
         | some r => some r
         | none => parseVarExpr s7) with
  | none => none
  | some (s8, expr) =>
  match parseScope s8 with
  | none => none
  | some (s9, block) =>
  match getInterval s9 with
  | none => none
  | some (s10, end_) =>
    some (s10,
      Expr.forExpr ident opt expr block { start := start, end_ := end_ })

/- ================================================================
   Section 3: the Execution Engine (spec-modelled) and the hold.rs
   test expectations
   ================================================================ -/

/-- `IndexInfo` from the interpreter's data model (used verbatim in
tests/hold.rs): the compound execution position, a `command_index` plus the
ordered per-nesting-level loop counters, outermost first. -/
structure IndexInfo where
  command_index : Nat
  loop_index : List Nat
deriving DecidableEq, Repr

/-- Modelled from the spec: the strict order on `loop_index` sequences.
Per the data model, comparison is "entry-by-entry", and "a shorter
`loop_index` (an instruction outside/above a loop)" is "ordered by the
shared prefix" — so two sequences where one is a prefix of the other are
not strictly ordered. -/
def loopIndexLt : List Nat → List Nat → Bool
  | _, [] => false
  | [], _ :: _ => false
  | a :: as, b :: bs => a < b || (a == b && loopIndexLt as bs)

/-- Modelled from the spec: the strict order on `IndexInfo`, "comparing two
`IndexInfo` values lexicographically (command_index, then loop_index
entry-by-entry)". -/
def indexLt (a b : IndexInfo) : Bool :=
  a.command_index < b.command_index ||
    (a.command_index == b.command_index && loopIndexLt a.loop_index b.loop_index)

/-- A message produced by one execution, as asserted by tests/hold.rs: a
`content_type: "text"` message with its text, or a `content_type: "error"`
message with its error text. -/
inductive MsgContent where
  | text (s : String)
  | error (s : String)
deriving DecidableEq, Repr

mutual

/-- Modelled from the spec: one node of a step's instruction tree, as far as
the Execution Engine's traversal model needs it (the interpreter crate is
not among the provided sources).  `say` emits a text message; `useVar`
references a memory entry, emitting its name as text when present and a
recoverable "used before it was saved in memory" error message otherwise;
`remember` writes a memory entry; `holdAct` is the suspend directive;
`forLoop` is a loop with a known iteration count whose body is a nested
instruction sequence (`ActSeq`, the engine-side instruction list). -/
inductive Act where
  | say (s : String)
  | useVar (name : String) (line : Nat) (column : Nat)
  | remember (name : String)
  | holdAct
  | forLoop (n : Nat) (body : ActSeq)

/-- Modelled from the spec: a sequence of engine instructions (a step body
or a loop body); instructions are numbered by their 0-based ordinal within
the sequence, the `command_index`. -/
inductive ActSeq where
  | nil
  | cons (a : Act) (rest : ActSeq)

end

/-- The recoverable-error message of a `useVar` whose value was never saved,
with the wording asserted by tests/hold.rs. -/
def errUseBeforeSave (name : String) (line column : Nat) (step flow : String) :
    String :=
  "< " ++ name ++ " > is used before it was saved in memory at line " ++
    toString line ++ ", column " ++ toString column ++ " in step [" ++ step ++
    "] from flow [" ++ flow ++ "]"

/-- Modelled from the spec: the Execution Engine's traversal state — the
resume target (the `Hold` position, if any, cleared once reached), the
messages emitted so far, the memory entries written so far, the `Hold`
recorded by a suspend directive (if any), and whether a suspend directive
has halted the traversal. -/
structure EngineSt where
  target : Option IndexInfo
  messages : List MsgContent
  memories : List String
  hold : Option IndexInfo
  halted : Bool
deriving DecidableEq, Repr

mutual

/-- Modelled from the spec: the Execution Engine's walk of one instruction,
following the design notes: "an explicit recursive walk that threads a
mutable 'current position' and a 'target position' (from the `Hold`, or
absent) and a 'suppress output' flag that flips to false exactly when
current ≥ target".  An instruction at position `⟨c, li⟩` strictly below the
target is suppressed: it emits nothing and writes no memory, but loops are
still traversed (their bodies may lie at or beyond the target).  Reaching
an instruction at position ≥ target clears the target; a live suspend
directive records a `Hold` at the current position and halts.  Entering a
loop "pushes a new zero-initialized counter onto `loop_index`; each
iteration increments the innermost counter before evaluating the body", so
iteration `k` (0-based) runs the body under counter `k + 1`. -/
def runAct (a : Act) (c : Nat) (li : List Nat) (st : EngineSt) : EngineSt :=
  if st.halted then st else
  let cur : IndexInfo := { command_index := c, loop_index := li }
  let live : Bool :=
    match st.target with
    | none => true
    | some p => !(indexLt cur p)
  let st1 := if live then { st with target := none } else st
  match a with
  | .say s =>
    if live then { st1 with messages := st1.messages ++ [.text s] } else st1
  | .useVar name line column =>
    if live then
      if name ∈ st1.memories then
        { st1 with messages := st1.messages ++ [.text name] }
      else
        { st1 with messages := st1.messages ++
            [.error (errUseBeforeSave name line column "start" "flow")] }
    else st1
  | .remember name =>
    if live then { st1 with memories := st1.memories ++ [name] } else st1
  | .holdAct =>
    if live then { st1 with hold := some cur, halted := true } else st1
  | .forLoop n body =>
    (List.range n).foldl (fun s k => runActSeq body 0 (li ++ [k + 1]) s) st1

/-- Modelled from the spec: the Execution Engine's walk of one instruction
sequence, numbering instructions by their 0-based ordinal within the
sequence (the `command_index`). -/
def runActSeq (acts : ActSeq) (c : Nat) (li : List Nat) (st : EngineSt) :
    EngineSt :=
  match acts with
  | .nil => st
  | .cons a rest => runActSeq rest (c + 1) li (runAct a c li st)

end

mutual

/-- Modelled from the spec: the positions visited by a full traversal of one
instruction (mirrors `runAct`'s walk, enumerating every loop iteration). -/
def actPositions (a : Act) (c : Nat) (li : List Nat) : List IndexInfo :=
  match a with
  | .forLoop n body =>
    { command_index := c, loop_index := li } ::
      ((List.range n).map (fun k => seqPositions body 0 (li ++ [k + 1]))).flatten
  | _ => [{ command_index := c, loop_index := li }]

/-- Modelled from the spec: the positions visited by a full traversal of one
instruction sequence (mirrors `runActSeq`'s walk). -/
def seqPositions (acts : ActSeq) (c : Nat) (li : List Nat) : List IndexInfo :=
  match acts with
  | .nil => []
  | .cons a rest => actPositions a c li ++ seqPositions rest (c + 1) li

end

/-- Modelled from the spec: run one step's instruction sequence, either
fresh (`hold = none`) or resumed from a `Hold` position. -/
def executeStep (acts : ActSeq) (hold : Option IndexInfo) : EngineSt :=
  runActSeq acts 0 []
    { target := hold, messages := [], memories := [], hold := none,
      halted := false }

/-- The expected message sequence of `hold_test_none` (tests/hold.rs lines
14-35): the output of executing `CSML/basic_test/hold.csml` with no `Hold`
in the context. -/
def hold_test_none_expected : List MsgContent :=
  [.error (errUseBeforeSave "this_hold" 2 5 "start" "flow"),
   .text "1", .text "2",
   .error (errUseBeforeSave "this_hold" 8 6 "start" "flow"),
   .text "4"]

/-- The expected message sequence of `hold_test_some_0` (tests/hold.rs lines
38-75): the output of executing the same flow with a `Hold` at
`IndexInfo { command_index: 0, loop_index: vec![] }`. -/
def hold_test_some_0_expected : List MsgContent :=
  [.text "1", .text "2",
   .error (errUseBeforeSave "this_hold" 8 6 "start" "flow"),
   .text "4"]

/-- The expected message sequence of `hold_test_some_12` (tests/hold.rs lines
108-135): resuming with a `Hold` at `command_index = 12` yields no
messages. -/
def hold_test_some_12_expected : List MsgContent := []

/-- The expected message sequence of `hold_test_some_17` (tests/hold.rs lines
168-195): resuming with a `Hold` at `command_index = 17` yields no
messages. -/
def hold_test_some_17_expected : List MsgContent := []

/- ================================================================
   Section 4: helper lemmas
   ================================================================ -/

theorem string_length_eq_zero_iff (s : String) : s.length = 0 ↔ s = "" := by
  constructor
  · intro h
    cases s with
    | mk data =>
      cases data with
      | nil => rfl
      | cons c cs => simp [String.length] at h
  · intro h
    subst h
    rfl

theorem string_append_eq_empty_iff (s t : String) :
    s ++ t = "" ↔ s = "" ∧ t = "" := by
  constructor
  · intro h
    have hl := congrArg String.length h
    rw [String.length_append] at hl
    have h0 : ("" : String).length = 0 := rfl
    have hs : s.length = 0 := by omega
    have ht : t.length = 0 := by omega
    exact ⟨(string_length_eq_zero_iff s).mp hs, (string_length_eq_zero_iff t).mp ht⟩
  · rintro ⟨rfl, rfl⟩
    rfl

theorem make_range_step_eq_empty_iff (res arg : String) :
    make_range_step res arg = "" ↔ res = "" ∧ arg = "" := by
  unfold make_range_step
  by_cases h : res.length > 0
  · rw [if_pos h]
    constructor
    · intro he
      have hl := congrArg String.length he
      rw [String.length_append, String.length_append] at hl
      have h1 : ("#" : String).length = 1 := rfl
      have h0 : ("" : String).length = 0 := rfl
      omega
    · rintro ⟨rfl, -⟩
      simp at h
  · rw [if_neg h]
    have hres : res = "" := by
      apply (string_length_eq_zero_iff res).mp
      omega
    subst hres
    rw [String.empty_append]
    simp

theorem foldl_make_range_step_eq_empty (args : List String) :
    ∀ init : String,
      args.foldl make_range_step init = "" ↔ (init = "" ∧ ∀ a ∈ args, a = "") := by
  induction args with
  | nil => simp
  | cons a rest ih =>
    intro init
    rw [List.foldl_cons, ih, make_range_step_eq_empty_iff]
    simp only [List.mem_cons, forall_eq_or_imp]
    tauto

theorem make_range_eq_empty_iff (args : List String) :
    make_range args = "" ↔ ∀ a ∈ args, a = "" := by
  unfold make_range
  rw [foldl_make_range_step_eq_empty]
  simp

theorem foldl_append_eq_empty (args : List String) :
    ∀ init : String,
      args.foldl (fun a b => a ++ b) init = "" ↔
        (init = "" ∧ ∀ a ∈ args, a = "") := by
  induction args with
  | nil => simp
  | cons a rest ih =>
    intro init
    rw [List.foldl_cons, ih, string_append_eq_empty_iff]
    simp only [List.mem_cons, forall_eq_or_imp]
    tauto

theorem concatAll_eq_empty_iff (args : List String) :
    concatAll args = "" ↔ ∀ a ∈ args, a = "" := by
  unfold concatAll
  rw [foldl_append_eq_empty]
  simp

theorem make_range_append_one (xs : List String) (a : String) :
    make_range (xs ++ [a]) = make_range_step (make_range xs) a := by
  simp [make_range, List.foldl_append]

theorem foldl_make_range_step_nonempty (args : List String) :
    ∀ res : String, res ≠ "" →
      args.foldl make_range_step res = res ++ hashTail args := by
  induction args with
  | nil =>
    intro res _
    simp [hashTail, String.append_empty]
  | cons a rest ih =>
    intro res h
    have hlen : res.length > 0 := by
      rcases Nat.eq_zero_or_pos res.length with h0 | h0
      · exact absurd ((string_length_eq_zero_iff res).mp h0) h
      · exact h0
    have hstep : make_range_step res a = res ++ "#" ++ a := by
      simp [make_range_step, if_pos hlen]
    have hne : res ++ "#" ++ a ≠ "" := by
      intro he
      rw [string_append_eq_empty_iff, string_append_eq_empty_iff] at he
      exact h he.1.1
    rw [List.foldl_cons, hstep, ih _ hne, hashTail]
    simp [String.append_assoc]

theorem joinHash_cons_eq (rest : List String) :
    ∀ a : String, joinHash (a :: rest) = a ++ hashTail rest := by
  induction rest with
  | nil =>
    intro a
    simp [joinHash, hashTail, String.append_empty]
  | cons b r ih =>
    intro a
    show a ++ "#" ++ joinHash (b :: r) = a ++ hashTail (b :: r)
    rw [ih b, hashTail]
    simp [String.append_assoc]

theorem make_range_cons_ne (a : String) (rest : List String) (ha : a ≠ "") :
    make_range (a :: rest) = joinHash (a :: rest) := by
  have hfirst : make_range_step "" a = a := by
    simp [make_range_step, String.empty_append]
  rw [make_range, List.foldl_cons, hfirst,
    foldl_make_range_step_nonempty rest a ha, joinHash_cons_eq]

theorem make_range_cons_empty (rest : List String) :
    make_range ("" :: rest) = make_range rest := by
  have hfirst : make_range_step "" "" = "" := by
    simp [make_range_step, String.empty_append]
  rw [make_range, List.foldl_cons, hfirst, make_range]

theorem make_range_length_le_joinHash (l : List String) :
    (make_range l).length ≤ (joinHash l).length := by
  induction l with
  | nil => exact Nat.le_refl _
  | cons a rest ih =>
    by_cases ha : a = ""
    · subst ha
      rw [make_range_cons_empty]
      cases rest with
      | nil => exact Nat.le_refl _
      | cons b r =>
        show (make_range (b :: r)).length ≤ ("" ++ "#" ++ joinHash (b :: r)).length
        rw [String.empty_append, String.length_append]
        have : ("#" : String).length = 1 := rfl
        omega
    · rw [make_range_cons_ne a rest ha]

/- ================================================================
   Section 5: claim theorems — key construction (make_range)
   ================================================================ -/

/-- C7: `make_range` joins its ordered list of string components with `#`,
with no separator before the first component: `make_range ["a","b","c"]`
is `"a#b#c"`, `make_range []` is `""`, and on any list of non-empty
components the result is exactly the `'#'`-join of the components. -/
theorem make_range_hash_join :
    make_range ["a", "b", "c"] = "a#b#c" ∧ make_range [] = "" ∧
      ∀ args : List String, (∀ a ∈ args, a ≠ "") →
        make_range args = joinHash args := by
  refine ⟨by decide, rfl, ?_⟩
  intro args hargs
  cases args with
  | nil => rfl
  | cons a rest =>
    exact make_range_cons_ne a rest (hargs a (List.mem_cons_self a rest))

/-- Witness for C7: the join equation of `make_range_hash_join` evaluated on
the concrete component list `["x", "y"]`. -/
theorem make_range_hash_join_witness :
    make_range ["x", "y"] = joinHash ["x", "y"] :=
  make_range_hash_join.2.2 ["x", "y"] (by decide)

/-- C10 counterexample: the claim says the result "differs from a standard
'#'-join whenever an empty component precedes a non-empty one", but on
`["a", "", "b"]` — where the empty second component precedes the non-empty
third — `make_range` agrees with the standard join (both give `"a##b"`):
the separator is only omitted while the accumulated prefix is still
empty. -/
theorem make_range_divergence_counterexample :
    (["a", "", "b"] : List String).get? 1 = some "" ∧
      (["a", "", "b"] : List String).get? 2 = some "b" ∧ "b" ≠ "" ∧
      make_range ["a", "", "b"] = joinHash ["a", "", "b"] := by
  refine ⟨rfl, rfl, by decide, by decide⟩

/-- C10 (amended): `make_range` inserts the `'#'` separator before a
component exactly when the concatenation of all preceding components is
non-empty, so `make_range ["", "b"] = "b"` while the standard join gives
`"#b"`; and the result differs from the standard `'#'`-join whenever the
first component is empty and a non-empty component follows. -/
theorem make_range_separator_rule :
    (∀ (xs : List String) (a : String),
        make_range (xs ++ [a]) =
          (if concatAll xs = "" then make_range xs else make_range xs ++ "#")
            ++ a) ∧
      make_range ["", "b"] = "b" ∧ joinHash ["", "b"] = "#b" ∧
      ∀ rest : List String, (∃ b ∈ rest, b ≠ "") →
        make_range ("" :: rest) ≠ joinHash ("" :: rest) := by
  refine ⟨?_, by decide, by decide, ?_⟩
  · intro xs a
    rw [make_range_append_one]
    unfold make_range_step
    by_cases hc : concatAll xs = ""
    · have hmr : make_range xs = "" :=
        (make_range_eq_empty_iff xs).mpr ((concatAll_eq_empty_iff xs).mp hc)
      rw [if_pos hc, hmr]
      simp
    · have hmr : make_range xs ≠ "" := fun h =>
        hc ((concatAll_eq_empty_iff xs).mpr ((make_range_eq_empty_iff xs).mp h))
      have hlen : (make_range xs).length > 0 :=
        Nat.pos_of_ne_zero (fun h => hmr ((string_length_eq_zero_iff _).mp h))
      rw [if_neg hc, if_pos hlen]
  · rintro rest ⟨b0, hb0, -⟩
    cases rest with
    | nil => cases hb0
    | cons b r =>
      intro he
      have hl := congrArg String.length he
      rw [make_range_cons_empty] at hl
      have hj : joinHash ("" :: b :: r) = "" ++ "#" ++ joinHash (b :: r) := rfl
      rw [hj, String.empty_append, String.length_append] at hl
      have hle := make_range_length_le_joinHash (b :: r)
      have : ("#" : String).length = 1 := rfl
      omega

/-- Witness for C10 (amended): the divergence clause of
`make_range_separator_rule` evaluated on the tail `["b"]`. -/
theorem make_range_separator_rule_witness :
    make_range ("" :: ["b"]) ≠ joinHash ("" :: ["b"]) :=
  make_range_separator_rule.2.2.2 ["b"] ⟨"b", by decide⟩

/- ================================================================
   Section 6: claim theorems — parser error handling (C3, C6)
   ================================================================ -/

theorem dupScan_eq_false_iff (instrs : List Instruction) :
    dupScan instrs = false ↔
      List.Pairwise
        (fun a b => a.instruction_type ≠ b.instruction_type) instrs := by
  induction instrs with
  | nil => simp [dupScan]
  | cons v rest ih =>
    simp only [dupScan, Bool.or_eq_false_iff, List.pairwise_cons, ih,
      List.any_eq_false, decide_eq_true_eq]

/-- C3: `create_flow_from_instructions` fails with the `StepDuplicateError`
at interval (0,0) exactly when two instructions share an
`instruction_type` — the error value is one fixed constant, so it is the
same regardless of which occurrence the scan meets first — and succeeds
with the map of (type, actions) pairs when all instruction types are
pairwise distinct. -/
theorem create_flow_duplicate_contract (instrs : List Instruction) :
    create_flow_from_instructions instrs =
      if List.Pairwise
          (fun a b => a.instruction_type ≠ b.instruction_type) instrs then
        .ok { flow_instructions :=
          instrs.map (fun elem => (elem.instruction_type, elem.actions)) }
      else
        .error (format_error { line := 0, column := 0 }
          (.custom .stepDuplicateError)) := by
  unfold create_flow_from_instructions
  by_cases hp : List.Pairwise
      (fun a b => a.instruction_type ≠ b.instruction_type) instrs
  · rw [if_pos hp, if_neg]
    intro hd
    rw [(dupScan_eq_false_iff instrs).mpr hp] at hd
    cases hd
  · rw [if_neg hp, if_pos]
    cases hd : dupScan instrs with
    | true => rfl
    | false => exact absurd ((dupScan_eq_false_iff instrs).mp hd) hp

/-- C6: when the underlying parser reports an incomplete-input condition,
`parse_flow` returns the one fixed incompleteness error — message
`"Incomplete"`, interval at the dummy origin (0,0) — irrespective of how
many further bytes nom reported as needed; the result carries no
information about where in the input the parse stopped. -/
theorem parse_flow_incomplete_generic (needed : Option Nat) :
    parse_flow (.error (.incomplete needed)) =
      .error { interval := { line := 0, column := 0 },
               message := "Incomplete" } := rfl

/- ================================================================
   Section 7: claim theorems — persistence layer (C8, C9) and
   retry-loop helper lemmas for C2
   ================================================================ -/

/-- C8: a successful backend response whose `responses` field is absent, or
whose response map is empty, makes `execute_batch_get_query` return `Ok`
with the empty list — never an error — and perform no backoff sleep. -/
theorem batch_get_empty_result_ok (Item Json : Type)
    (decode : Item → Except String Json) (rng : Nat → Nat → Nat)
    (elapsed : Nat → Nat) (rest : List (GetCallResult Item)) (k : Nat) :
    execute_batch_get_query decode rng elapsed
        (.ok none :: rest) k = (some (.ok []), []) ∧
      execute_batch_get_query decode rng elapsed
        (.ok (some []) :: rest) k = (some (.ok []), []) :=
  ⟨rfl, rfl⟩

/-- C9: a backend error other than the provisioned-throughput-exceeded error
makes both `execute_batch_write_query` and `execute_batch_get_query` return
that error at once — no backoff sleep is performed and no further backend
call from the remaining trace is consumed. -/
theorem other_backend_error_immediate (rng : Nat → Nat → Nat)
    (elapsed : Nat → Nat) (e : String) (k : Nat) :
    (∀ rest : List WriteCallResult,
        execute_batch_write_query rng elapsed (.otherError e :: rest) k =
          (some (.error (.other e)), [])) ∧
      ∀ (Item Json : Type) (decode : Item → Except String Json)
        (rest : List (GetCallResult Item)),
        execute_batch_get_query decode rng elapsed
          (.otherError e :: rest) k = (some (.error (.other e)), []) :=
  ⟨fun _ => rfl, fun _ _ _ _ => rfl⟩

theorem backoffInterval_le (r : Nat) :
    backoffInterval r ≤ MAX_INTERVAL_LIMIT :=
  Nat.min_le_left _ _

theorem backoffInterval_pos (r : Nat) (h : 0 < r) : 0 < backoffInterval r := by
  unfold backoffInterval RETRY_BASE MAX_INTERVAL_LIMIT
  omega

theorem write_sleeps_spec (rng : Nat → Nat → Nat) (elapsed : Nat → Nat) :
    ∀ (resps : List WriteCallResult) (k i s : Nat),
      (execute_batch_write_query rng elapsed resps k).2[i]? = some s →
      s = rng (k + i) (backoffInterval (k + i + 1)) := by
  intro resps
  induction resps with
  | nil =>
    intro k i s h
    simp [execute_batch_write_query] at h
  | cons r rs ih =>
    intro k i s h
    cases r with
    | ok => simp [execute_batch_write_query] at h
    | otherError e => simp [execute_batch_write_query] at h
    | provisionedThroughputExceeded e =>
      by_cases hc : MAX_ELAPSED_TIME_MILLIS ≤ elapsed k
      · rw [execute_batch_write_query] at h
        simp only [if_pos hc] at h
        cases i with
        | zero =>
          simp only [List.getElem?_cons_zero, Option.some.injEq] at h
          subst h
          rfl
        | succ i => simp at h
      · rw [execute_batch_write_query] at h
        simp only [if_neg hc] at h
        cases i with
        | zero =>
          simp only [List.getElem?_cons_zero, Option.some.injEq] at h
          subst h
          rfl
        | succ i =>
          simp only [List.getElem?_cons_succ] at h
          have hi := ih (k + 1) i s h
          rw [show k + 1 + i = k + (i + 1) from by omega] at hi
          exact hi

theorem write_capacity_failure_iff (rng : Nat → Nat → Nat)
    (elapsed : Nat → Nat) :
    ∀ (resps : List WriteCallResult) (k : Nat) (e : String),
      (execute_batch_write_query rng elapsed resps k).1 =
          some (.error (.provisionedThroughputExceeded e)) ↔
        ∃ j, (∀ i, i < j →
              ∃ ei, resps[i]? = some (.provisionedThroughputExceeded ei) ∧
                elapsed (k + i) < MAX_ELAPSED_TIME_MILLIS) ∧
          resps[j]? = some (.provisionedThroughputExceeded e) ∧
          MAX_ELAPSED_TIME_MILLIS ≤ elapsed (k + j) := by
  intro resps
  induction resps with
  | nil =>
    intro k e
    constructor
    · intro h
      simp [execute_batch_write_query] at h
    · rintro ⟨j, -, hj, -⟩
      simp at hj
  | cons r rs ih =>
    intro k e
    cases r with
    | ok =>
      constructor
      · intro h
        simp [execute_batch_write_query] at h
      · rintro ⟨j, hpre, hj, -⟩
        cases j with
        | zero => simp at hj
        | succ j =>
          obtain ⟨ei, hei, -⟩ := hpre 0 (Nat.succ_pos j)
          simp at hei
    | otherError e2 =>
      constructor
      · intro h
        simp [execute_batch_write_query] at h
      · rintro ⟨j, hpre, hj, -⟩
        cases j with
        | zero => simp at hj
        | succ j =>
          obtain ⟨ei, hei, -⟩ := hpre 0 (Nat.succ_pos j)
          simp at hei
    | provisionedThroughputExceeded e2 =>
      by_cases hc : MAX_ELAPSED_TIME_MILLIS ≤ elapsed k
      · constructor
        · intro h
          rw [execute_batch_write_query] at h
          simp only [if_pos hc, Option.some.injEq, Except.error.injEq,
            WriteQueryError.provisionedThroughputExceeded.injEq] at h
          subst h
          refine ⟨0, ?_, by simp, by simpa using hc⟩
          intro i hi
          exact absurd hi (Nat.not_lt_zero i)
        · rintro ⟨j, hpre, hj, hcj⟩
          cases j with
          | zero =>
            simp only [List.getElem?_cons_zero, Option.some.injEq,
              WriteCallResult.provisionedThroughputExceeded.injEq] at hj
            subst hj
            rw [execute_batch_write_query]
            simp [if_pos hc]
          | succ j =>
            obtain ⟨ei, -, hlt⟩ := hpre 0 (Nat.succ_pos j)
            rw [Nat.add_zero] at hlt
            omega
      · have heq :
            (execute_batch_write_query rng elapsed
              (.provisionedThroughputExceeded e2 :: rs) k).1 =
            (execute_batch_write_query rng elapsed rs (k + 1)).1 := by
          rw [execute_batch_write_query]
          simp [if_neg hc]
        rw [heq, ih (k + 1) e]
        constructor
        · rintro ⟨j, hpre, hj, hcj⟩
          refine ⟨j + 1, ?_, by simpa using hj, ?_⟩
          · intro i hi
            cases i with
            | zero =>
              refine ⟨e2, by simp, ?_⟩
              rw [Nat.add_zero]
              omega
            | succ i =>
              obtain ⟨ei, hg, hl⟩ := hpre i (by omega)
              refine ⟨ei, by simpa using hg, ?_⟩
              rw [show k + (i + 1) = k + 1 + i from by omega]
              exact hl
          · rw [show k + (j + 1) = k + 1 + j from by omega]
            exact hcj
        · rintro ⟨j, hpre, hj, hcj⟩
          cases j with
          | zero =>
            rw [Nat.add_zero] at hcj
            omega
          | succ j =>
            refine ⟨j, ?_, by simpa using hj, ?_⟩
            · intro i hi
              obtain ⟨ei, hg, hl⟩ := hpre (i + 1) (by omega)
              refine ⟨ei, by simpa using hg, ?_⟩
              rw [show k + 1 + i = k + (i + 1) from by omega]
              exact hl
            · rw [show k + 1 + j = k + (j + 1) from by omega]
              exact hcj

theorem decodeItemList_ne_cap (Item Json : Type)
    (decode : Item → Except String Json) (l : List Item) (e : String) :
    decodeItemList decode l ≠ .error (.provisionedThroughputExceeded e) := by
  induction l with
  | nil => simp [decodeItemList]
  | cons it rest ih =>
    simp only [decodeItemList]
    cases decode it with
    | error e2 => simp
    | ok j =>
      cases hrec : decodeItemList decode rest with
      | error e2 =>
        rw [hrec] at ih
        simpa using ih
      | ok js => simp

theorem decodeAllItems_ne_cap (Item Json : Type)
    (decode : Item → Except String Json)
    (items : List (String × List Item)) (e : String) :
    decodeAllItems decode items ≠ .error (.provisionedThroughputExceeded e) := by
  induction items with
  | nil => simp [decodeAllItems]
  | cons p rest ih =>
    obtain ⟨name, l⟩ := p
    simp only [decodeAllItems]
    cases hl : decodeItemList decode l with
    | error e2 =>
      have := decodeItemList_ne_cap Item Json decode l e
      rw [hl] at this
      simpa using this
    | ok a =>
      cases hrec : decodeAllItems decode rest with
      | error e2 =>
        rw [hrec] at ih
        simpa using ih
      | ok b => simp

theorem processGetResponses_ne_cap (Item Json : Type)
    (decode : Item → Except String Json)
    (responses : Option (List (String × List Item))) (e : String) :
    processGetResponses decode responses ≠
      .error (.provisionedThroughputExceeded e) := by
  cases responses with
  | none => simp [processGetResponses]
  | some items =>
    simp only [processGetResponses]
    by_cases hlen : items.length = 0
    · simp [if_pos hlen]
    · rw [if_neg hlen]
      exact decodeAllItems_ne_cap Item Json decode items e

theorem get_sleeps_spec (Item Json : Type)
    (decode : Item → Except String Json) (rng : Nat → Nat → Nat)
    (elapsed : Nat → Nat) :
    ∀ (resps : List (GetCallResult Item)) (k i s : Nat),
      (execute_batch_get_query decode rng elapsed
          resps k).2[i]? = some s →
      s = rng (k + i) (backoffInterval (k + i + 1)) := by
  intro resps
  induction resps with
  | nil =>
    intro k i s h
    simp [execute_batch_get_query] at h
  | cons r rs ih =>
    intro k i s h
    cases r with
    | ok responses => simp [execute_batch_get_query] at h
    | otherError e => simp [execute_batch_get_query] at h
    | provisionedThroughputExceeded e =>
      by_cases hc : MAX_ELAPSED_TIME_MILLIS ≤ elapsed k
      · rw [execute_batch_get_query] at h
        simp only [if_pos hc] at h
        cases i with
        | zero =>
          simp only [List.getElem?_cons_zero, Option.some.injEq] at h
          subst h
          rfl
        | succ i => simp at h
      · rw [execute_batch_get_query] at h
        simp only [if_neg hc] at h
        cases i with
        | zero =>
          simp only [List.getElem?_cons_zero, Option.some.injEq] at h
          subst h
          rfl
        | succ i =>
          simp only [List.getElem?_cons_succ] at h
          have hi := ih (k + 1) i s h
          rw [show k + 1 + i = k + (i + 1) from by omega] at hi
          exact hi

theorem get_capacity_failure_iff (Item Json : Type)
    (decode : Item → Except String Json) (rng : Nat → Nat → Nat)
    (elapsed : Nat → Nat) :
    ∀ (resps : List (GetCallResult Item)) (k : Nat) (e : String),
      (execute_batch_get_query decode rng elapsed
            resps k).1 =
          some (.error (.provisionedThroughputExceeded e)) ↔
        ∃ j, (∀ i, i < j →
              ∃ ei, resps[i]? = some (.provisionedThroughputExceeded ei) ∧
                elapsed (k + i) < MAX_ELAPSED_TIME_MILLIS) ∧
          resps[j]? = some (.provisionedThroughputExceeded e) ∧
          MAX_ELAPSED_TIME_MILLIS ≤ elapsed (k + j) := by
  intro resps
  induction resps with
  | nil =>
    intro k e
    constructor
    · intro h
      simp [execute_batch_get_query] at h
    · rintro ⟨j, -, hj, -⟩
      simp at hj
  | cons r rs ih =>
    intro k e
    cases r with
    | ok responses =>
      constructor
      · intro h
        rw [execute_batch_get_query] at h
        simp only [Option.some.injEq] at h
        exact absurd h (processGetResponses_ne_cap Item Json decode responses e)
      · rintro ⟨j, hpre, hj, -⟩
        cases j with
        | zero => simp at hj
        | succ j =>
          obtain ⟨ei, hei, -⟩ := hpre 0 (Nat.succ_pos j)
          simp at hei
    | otherError e2 =>
      constructor
      · intro h
        simp [execute_batch_get_query] at h
      · rintro ⟨j, hpre, hj, -⟩
        cases j with
        | zero => simp at hj
        | succ j =>
          obtain ⟨ei, hei, -⟩ := hpre 0 (Nat.succ_pos j)
          simp at hei
    | provisionedThroughputExceeded e2 =>
      by_cases hc : MAX_ELAPSED_TIME_MILLIS ≤ elapsed k
      · constructor
        · intro h
          rw [execute_batch_get_query] at h
          simp only [if_pos hc, Option.some.injEq, Except.error.injEq,
            GetEngineError.provisionedThroughputExceeded.injEq] at h
          subst h
          refine ⟨0, ?_, by simp, by simpa using hc⟩
          intro i hi
          exact absurd hi (Nat.not_lt_zero i)
        · rintro ⟨j, hpre, hj, hcj⟩
          cases j with
          | zero =>
            simp only [List.getElem?_cons_zero, Option.some.injEq,
              GetCallResult.provisionedThroughputExceeded.injEq] at hj
            subst hj
            rw [execute_batch_get_query]
            simp [if_pos hc]
          | succ j =>
            obtain ⟨ei, -, hlt⟩ := hpre 0 (Nat.succ_pos j)
            rw [Nat.add_zero] at hlt
            omega
      · have heq :
            (execute_batch_get_query decode rng elapsed
              (.provisionedThroughputExceeded e2 :: rs) k).1 =
            (execute_batch_get_query decode rng elapsed
              rs (k + 1)).1 := by
          rw [execute_batch_get_query]
          simp [if_neg hc]
        rw [heq, ih (k + 1) e]
        constructor
        · rintro ⟨j, hpre, hj, hcj⟩
          refine ⟨j + 1, ?_, by simpa using hj, ?_⟩
          · intro i hi
            cases i with
            | zero =>
              refine ⟨e2, by simp, ?_⟩
              rw [Nat.add_zero]
              omega
            | succ i =>
              obtain ⟨ei, hg, hl⟩ := hpre i (by omega)
              refine ⟨ei, by simpa using hg, ?_⟩
              rw [show k + (i + 1) = k + 1 + i from by omega]
              exact hl
          · rw [show k + (j + 1) = k + 1 + j from by omega]
            exact hcj
        · rintro ⟨j, hpre, hj, hcj⟩
          cases j with
          | zero =>
            rw [Nat.add_zero] at hcj
            omega
          | succ j =>
            refine ⟨j, ?_, by simpa using hj, ?_⟩
            · intro i hi
              obtain ⟨ei, hg, hl⟩ := hpre (i + 1) (by omega)
              refine ⟨ei, by simpa using hg, ?_⟩
              rw [show k + 1 + i = k + (i + 1) from by omega]
              exact hl
            · rw [show k + 1 + j = k + (j + 1) from by omega]
              exact hcj

/-- C2: for runs of consecutive capacity (provisioned-throughput-exceeded)
errors in `execute_batch_write_query` and `execute_batch_get_query`, under
the `gen_range` contract for the random source (`rng k b < b` whenever
`0 < b`):
the computed backoff interval at attempt number `r` is
`min 60000 (500 * 2 * r)` and hence ≤ 60000 ms; every performed sleep is
the random draw over `[0, interval)` for its iteration; the run returns the
current (last) capacity error as a terminal failure exactly when there is
an iteration `j` whose preceding iterations were all capacity errors still
below the 600000 ms elapsed-time ceiling and whose own post-sleep elapsed
reading reaches the ceiling; and while every elapsed reading stays below
the ceiling, a capacity error never propagates to the caller. -/
theorem backoff_retry_contract (rng : Nat → Nat → Nat) (elapsed : Nat → Nat)
    (hrng : ∀ k b, 0 < b → rng k b < b) :
    (MAX_ELAPSED_TIME_MILLIS = 600000 ∧
      ∀ r, backoffInterval r = min 60000 (500 * 2 * r) ∧
        backoffInterval r ≤ 60000) ∧
    (∀ (resps : List WriteCallResult) (k i s : Nat),
        (execute_batch_write_query rng elapsed resps k).2[i]? = some s →
        s = rng (k + i) (backoffInterval (k + i + 1)) ∧
          s < backoffInterval (k + i + 1)) ∧
    (∀ (Item Json : Type) (decode : Item → Except String Json)
        (resps : List (GetCallResult Item)) (k i s : Nat),
        (execute_batch_get_query decode rng elapsed
            resps k).2[i]? = some s →
        s = rng (k + i) (backoffInterval (k + i + 1)) ∧
          s < backoffInterval (k + i + 1)) ∧
    (∀ (resps : List WriteCallResult) (k : Nat) (e : String),
        (execute_batch_write_query rng elapsed resps k).1 =
            some (.error (.provisionedThroughputExceeded e)) ↔
          ∃ j, (∀ i, i < j →
                ∃ ei, resps[i]? = some (.provisionedThroughputExceeded ei) ∧
                  elapsed (k + i) < MAX_ELAPSED_TIME_MILLIS) ∧
            resps[j]? = some (.provisionedThroughputExceeded e) ∧
            MAX_ELAPSED_TIME_MILLIS ≤ elapsed (k + j)) ∧
    (∀ (Item Json : Type) (decode : Item → Except String Json)
        (resps : List (GetCallResult Item)) (k : Nat) (e : String),
        (execute_batch_get_query decode rng elapsed
              resps k).1 =
            some (.error (.provisionedThroughputExceeded e)) ↔
          ∃ j, (∀ i, i < j →
                ∃ ei, resps[i]? = some (.provisionedThroughputExceeded ei) ∧
                  elapsed (k + i) < MAX_ELAPSED_TIME_MILLIS) ∧
            resps[j]? = some (.provisionedThroughputExceeded e) ∧
            MAX_ELAPSED_TIME_MILLIS ≤ elapsed (k + j)) ∧
    (∀ (resps : List WriteCallResult) (k : Nat),
        (∀ i, elapsed (k + i) < MAX_ELAPSED_TIME_MILLIS) →
        ∀ e, (execute_batch_write_query rng elapsed resps k).1 ≠
          some (.error (.provisionedThroughputExceeded e))) ∧
    (∀ (Item Json : Type) (decode : Item → Except String Json)
        (resps : List (GetCallResult Item)) (k : Nat),
        (∀ i, elapsed (k + i) < MAX_ELAPSED_TIME_MILLIS) →
        ∀ e, (execute_batch_get_query decode rng elapsed
            resps k).1 ≠
          some (.error (.provisionedThroughputExceeded e))) := by
  refine ⟨⟨rfl, fun r => ⟨rfl, backoffInterval_le r⟩⟩, ?_, ?_, ?_, ?_, ?_, ?_⟩
  · intro resps k i s h
    have hs := write_sleeps_spec rng elapsed resps k i s h
    refine ⟨hs, ?_⟩
    rw [hs]
    exact hrng (k + i) _ (backoffInterval_pos (k + i + 1) (by omega))
  · intro Item Json decode resps k i s h
    have hs := get_sleeps_spec Item Json decode rng elapsed resps k i s h
    refine ⟨hs, ?_⟩
    rw [hs]
    exact hrng (k + i) _ (backoffInterval_pos (k + i + 1) (by omega))
  · exact write_capacity_failure_iff rng elapsed
  · intro Item Json decode
    exact get_capacity_failure_iff Item Json decode rng elapsed
  · intro resps k hbelow e h
    obtain ⟨j, -, -, hcj⟩ := (write_capacity_failure_iff rng elapsed resps k e).mp h
    exact absurd hcj (Nat.not_le.mpr (hbelow j))
  · intro Item Json decode resps k hbelow e h
    obtain ⟨j, -, -, hcj⟩ :=
      (get_capacity_failure_iff Item Json decode rng elapsed resps k e).mp h
    exact absurd hcj (Nat.not_le.mpr (hbelow j))

/-- Witness for C2: `backoff_retry_contract` instantiated with the random
source that always draws 0 and a clock reading the ceiling from the start;
on the one-element capacity-error trace, the write loop terminates with
that capacity error. -/
theorem backoff_retry_contract_witness :
    (execute_batch_write_query (fun _ _ => 0) (fun _ => 600000)
        [.provisionedThroughputExceeded "e"] 0).1 =
      some (.error (.provisionedThroughputExceeded "e")) :=
  ((backoff_retry_contract (fun _ _ => 0) (fun _ => 600000)
        (fun _ _ hb => hb)).2.2.2.1
      [.provisionedThroughputExceeded "e"] 0 "e").mpr
    ⟨0, fun i hi => absurd hi (Nat.not_lt_zero i), by simp,
      by simp [MAX_ELAPSED_TIME_MILLIS]⟩

/- ================================================================
   Section 8: claim theorem — the foreach construct (C5)
   ================================================================ -/

theorem parse_for_opt_spec {σ : Type} (tagComma : NomP σ Unit)
    (parseIdent : NomP σ Ident) (s4 : σ) :
    (∃ sc v, tagComma s4 = some (sc, ()) ∧
        parseIdent sc = some ((parse_for_opt tagComma parseIdent s4).1, v) ∧
        (parse_for_opt tagComma parseIdent s4).2 = some v) ∨
      ((parse_for_opt tagComma parseIdent s4).1 = s4 ∧
        (parse_for_opt tagComma parseIdent s4).2 = none) := by
  cases hC : tagComma s4 with
  | none =>
    refine Or.inr ⟨?_, ?_⟩ <;> simp [parse_for_opt, hC]
  | some p =>
    obtain ⟨sc, u⟩ := p
    cases u
    cases hI : parseIdent sc with
    | none =>
      refine Or.inr ⟨?_, ?_⟩ <;> simp [parse_for_opt, hC, hI]
    | some q =>
      obtain ⟨sv, v⟩ := q
      refine Or.inl ⟨sc, v, rfl, ?_, ?_⟩ <;> simp [parse_for_opt, hC, hI]

/-- C5: whenever `parse_for` accepts an input, the produced node is a
`ForExpr` whose fields are exactly the results of the successive
sub-parses: the loop variable from `parse_ident`, the possibly-absent
secondary binding from the optional `, ident` group, the iterable
expression from `parse_as_variable`-else-`parse_var_expr`, the nested block
from `parse_scope`, and a `RangeInterval` from the interval captured at the
construct's start (right after the `foreach` token) to the interval
captured at its end (after the block). -/
theorem parse_for_shape {σ : Type}
    (tagForeach tagLParen tagRParen tagComma tagIn : NomP σ Unit)
    (getInterval : NomP σ Interval) (parseIdent : NomP σ Ident)
    (parseAsVariable parseVarExpr : NomP σ Expr)
    (parseScope : NomP σ (List Expr)) (s0 sFin : σ) (e : Expr)
    (h : parse_for tagForeach tagLParen tagRParen tagComma tagIn getInterval
        parseIdent parseAsVariable parseVarExpr parseScope s0 =
      some (sFin, e)) :
    ∃ (s1 s2 s3 s4 s5 s6 s7 s8 s9 : σ) (start end_ : Interval)
      (ident : Ident) (opt : Option Ident) (iter : Expr) (block : List Expr),
      tagForeach s0 = some (s1, ()) ∧
      getInterval s1 = some (s2, start) ∧
      tagLParen s2 = some (s3, ()) ∧
      parseIdent s3 = some (s4, ident) ∧
      ((∃ sc v, tagComma s4 = some (sc, ()) ∧
          parseIdent sc = some (s5, v) ∧ opt = some v) ∨
        (s5 = s4 ∧ opt = none)) ∧
      tagRParen s5 = some (s6, ()) ∧
      tagIn s6 = some (s7, ()) ∧
      (parseAsVariable s7 = some (s8, iter) ∨
        (parseAsVariable s7 = none ∧ parseVarExpr s7 = some (s8, iter))) ∧
      parseScope s8 = some (s9, block) ∧
      getInterval s9 = some (sFin, end_) ∧
      e = Expr.forExpr ident opt iter block { start := start, end_ := end_ } := by
  unfold parse_for at h
  split at h
  · exact Option.noConfusion h
  · rename_i s1 u1 hF
    cases u1
    split at h
    · exact Option.noConfusion h
    · rename_i s2 start hGi
      split at h
      · exact Option.noConfusion h
      · rename_i s3 u2 hLP
        cases u2
        split at h
        · exact Option.noConfusion h
        · rename_i s4 ident hId
          split at h
          rename_i s5 opt hOpt
          split at h
          · exact Option.noConfusion h
          · rename_i s6 u3 hRP
            cases u3
            split at h
            · exact Option.noConfusion h
            · rename_i s7 u4 hIn
              cases u4
              split at h
              · exact Option.noConfusion h
              · rename_i s8 iter hAlt
                split at h
                · exact Option.noConfusion h
                · rename_i s9 block hSc
                  split at h
                  · exact Option.noConfusion h
                  · rename_i s10 end_ hGi2
                    injection h with h
                    injection h with h1 h2
                    subst h1
                    subst h2
                    refine ⟨s1, s2, s3, s4, s5, s6, s7, s8, s9, start, end_,
                      ident, opt, iter, block, hF, hGi, hLP, hId, ?_, hRP,
                      hIn, ?_, hSc, hGi2, rfl⟩
                    · rcases parse_for_opt_spec tagComma parseIdent s4 with
                        ⟨sc, v, hC, hIv, hv⟩ | ⟨h1, h2⟩
                      · rw [hOpt] at hIv hv
                        exact Or.inl ⟨sc, v, hC, hIv, hv⟩
                      · rw [hOpt] at h1 h2
                        exact Or.inr ⟨h1, h2⟩
                    · cases hAV : parseAsVariable s7 with
                      | some r =>
                        rw [hAV] at hAlt
                        simp only [Option.some.injEq] at hAlt
                        subst hAlt
                        exact Or.inl rfl
                      | none =>
                        rw [hAV] at hAlt
                        simp only [] at hAlt
                        exact Or.inr ⟨rfl, hAlt⟩

/-- Witness for C5: `parse_for_shape` applied to a concrete run over
`σ := Nat` positions, with token parsers that advance by one, an interval
oracle reporting the current position, and trivial identifier, iterable and
scope parsers; the accepted input produces the expected `ForExpr`. -/
theorem parse_for_shape_witness :
    ∃ (s1 s2 s3 s4 s5 s6 s7 s8 s9 : Nat) (start end_ : Interval)
      (ident : Ident) (opt : Option Ident) (iter : Expr) (block : List Expr),
      (fun n : Nat => some (n + 1, ())) 0 = some (s1, ()) ∧
      (fun n : Nat => some (n, Interval.mk n 0)) s1 = some (s2, start) ∧
      (fun n : Nat => some (n + 1, ())) s2 = some (s3, ()) ∧
      (fun n : Nat => some (n + 1, Ident.mk "i")) s3 = some (s4, ident) ∧
      ((∃ sc v, (fun n : Nat => some (n + 1, ())) s4 = some (sc, ()) ∧
          (fun n : Nat => some (n + 1, Ident.mk "i")) sc = some (s5, v) ∧
          opt = some v) ∨
        (s5 = s4 ∧ opt = none)) ∧
      (fun n : Nat => some (n + 1, ())) s5 = some (s6, ()) ∧
      (fun n : Nat => some (n + 1, ())) s6 = some (s7, ()) ∧
      ((fun _ : Nat => (none : Option (Nat × Expr))) s7 = some (s8, iter) ∨
        ((fun _ : Nat => (none : Option (Nat × Expr))) s7 = none ∧
          (fun n : Nat => some (n + 1, Expr.lit "it")) s7 = some (s8, iter))) ∧
      (fun n : Nat => some (n + 1, ([] : List Expr))) s8 = some (s9, block) ∧
      (fun n : Nat => some (n, Interval.mk n 0)) s9 = some (9, end_) ∧
      Expr.forExpr (Ident.mk "i") (some (Ident.mk "i")) (Expr.lit "it") []
          { start := Interval.mk 1 0, end_ := Interval.mk 9 0 } =
        Expr.forExpr ident opt iter block
          { start := start, end_ := end_ } :=
  parse_for_shape (fun n => some (n + 1, ())) (fun n => some (n + 1, ()))
    (fun n => some (n + 1, ())) (fun n => some (n + 1, ()))
    (fun n => some (n + 1, ())) (fun n => some (n, Interval.mk n 0))
    (fun n => some (n + 1, Ident.mk "i")) (fun _ => none)
    (fun n => some (n + 1, Expr.lit "it"))
    (fun n => some (n + 1, ([] : List Expr))) 0 9
    (Expr.forExpr (Ident.mk "i") (some (Ident.mk "i")) (Expr.lit "it") []
      { start := Interval.mk 1 0, end_ := Interval.mk 9 0 }) rfl

/- ================================================================
   Section 9: claim theorems — suspend/resume (C1, C4)
   ================================================================ -/

mutual

theorem runAct_suppressed (P : IndexInfo) (a : Act) (c : Nat) (li : List Nat)
    (st : EngineSt) (htgt : st.target = some P) (hhalt : st.halted = false)
    (hpos : ∀ i ∈ actPositions a c li, indexLt i P = true) :
    runAct a c li st = st := by
  have hcur : indexLt { command_index := c, loop_index := li } P = true :=
    hpos _ (by cases a <;> simp [actPositions])
  cases a with
  | forLoop n body =>
    have hstep : runAct (.forLoop n body) c li st =
        (List.range n).foldl (fun s k => runActSeq body 0 (li ++ [k + 1]) s)
          st := by
      simp [runAct, hhalt, htgt, hcur]
    rw [hstep]
    have haux : ∀ ks : List Nat,
        (∀ k ∈ ks, ∀ i ∈ seqPositions body 0 (li ++ [k + 1]),
          indexLt i P = true) →
        ks.foldl (fun s k => runActSeq body 0 (li ++ [k + 1]) s) st = st := by
      intro ks
      induction ks with
      | nil => intro _; rfl
      | cons k0 krest ih =>
        intro hk
        rw [List.foldl_cons,
          runActSeq_suppressed P body 0 (li ++ [k0 + 1]) st htgt hhalt
            (hk k0 (List.mem_cons_self k0 krest))]
        exact ih (fun k hk2 => hk k (List.mem_cons_of_mem k0 hk2))
    apply haux
    intro k hk i hi
    apply hpos
    simp only [actPositions, List.mem_cons, List.mem_flatten, List.mem_map]
    exact Or.inr ⟨seqPositions body 0 (li ++ [k + 1]), ⟨k, hk, rfl⟩, hi⟩
  | say s => simp [runAct, hhalt, htgt, hcur]
  | useVar name line column => simp [runAct, hhalt, htgt, hcur]
  | remember name => simp [runAct, hhalt, htgt, hcur]
  | holdAct => simp [runAct, hhalt, htgt, hcur]

theorem runActSeq_suppressed (P : IndexInfo) (acts : ActSeq) (c : Nat)
    (li : List Nat) (st : EngineSt) (htgt : st.target = some P)
    (hhalt : st.halted = false)
    (hpos : ∀ i ∈ seqPositions acts c li, indexLt i P = true) :
    runActSeq acts c li st = st := by
  cases acts with
  | nil => simp [runActSeq]
  | cons a rest =>
    have h1 : runAct a c li st = st :=
      runAct_suppressed P a c li st htgt hhalt
        (fun i hi => hpos i
          (by simp only [seqPositions, List.mem_append]; exact Or.inl hi))
    have h2 : runActSeq (.cons a rest) c li st =
        runActSeq rest (c + 1) li (runAct a c li st) := by
      simp [runActSeq]
    rw [h2, h1]
    exact runActSeq_suppressed P rest (c + 1) li st htgt hhalt
      (fun i hi => hpos i
        (by simp only [seqPositions, List.mem_append]; exact Or.inr hi))

end

/-- C4: in the spec-modelled Execution Engine, resuming from a `Hold`
position `P` that is strictly beyond every position reachable in the run
leaves every instruction suppressed, so the run terminates with no output
messages (in particular no error-content message), no memory writes, and no
recorded `Hold` — an empty but successful result. -/
theorem resume_beyond_reachable_empty (acts : ActSeq) (P : IndexInfo)
    (h : ∀ i ∈ seqPositions acts 0 [], indexLt i P = true) :
    (executeStep acts (some P)).messages = [] ∧
      (executeStep acts (some P)).memories = [] ∧
      (executeStep acts (some P)).hold = none := by
  have hrun := runActSeq_suppressed P acts 0 []
    { target := some P, messages := [], memories := [], hold := none,
      halted := false } rfl rfl h
  unfold executeStep
  rw [hrun]
  exact ⟨rfl, rfl, rfl⟩

/-- Witness for C4: `resume_beyond_reachable_empty` on a concrete step body
(an emission, a memory reference, a two-iteration loop and a suspend
directive, whose reachable positions all lie below command index 4) resumed
from the out-of-range position `command_index = 12`. -/
theorem resume_beyond_reachable_empty_witness :
    (executeStep
        (.cons (.say "1") (.cons (.useVar "this_hold" 2 5)
          (.cons (.forLoop 2 (.cons (.say "2") .nil))
            (.cons .holdAct .nil))))
        (some { command_index := 12, loop_index := [] })).messages = [] ∧
      (executeStep
        (.cons (.say "1") (.cons (.useVar "this_hold" 2 5)
          (.cons (.forLoop 2 (.cons (.say "2") .nil))
            (.cons .holdAct .nil))))
        (some { command_index := 12, loop_index := [] })).memories = [] ∧
      (executeStep
        (.cons (.say "1") (.cons (.useVar "this_hold" 2 5)
          (.cons (.forLoop 2 (.cons (.say "2") .nil))
            (.cons .holdAct .nil))))
        (some { command_index := 12, loop_index := [] })).hold = none :=
  resume_beyond_reachable_empty
    (.cons (.say "1") (.cons (.useVar "this_hold" 2 5)
      (.cons (.forLoop 2 (.cons (.say "2") .nil))
        (.cons .holdAct .nil))))
    { command_index := 12, loop_index := [] } (by decide)

/-- C1 counterexample: the repository's own suspend/resume tests pin the two
executions the claim compares — `hold_test_none` (no `Hold`) expects five
messages, while `hold_test_some_0` (`Hold` at `command_index = 0`, empty
`loop_index`) expects only four: the leading recoverable-error message of
the fresh run is absent from the resumed run, so the two output sequences
are not identical. -/
theorem hold_resume_zero_counterexample :
    hold_test_none_expected ≠ hold_test_some_0_expected := by
  intro h
  have hl := congrArg List.length h
  simp [hold_test_none_expected, hold_test_some_0_expected] at hl

/-- C1 (amended): per the repository's tests, executing with a `Hold` at the
"before everything" position (command_index = 0, empty loop_index) produces
the fresh run's output sequence with its leading message — the recoverable
"used before it was saved in memory" error at line 2, column 5 — removed;
the remaining messages are identical and in the same order. -/
theorem hold_resume_zero_drops_leading_error :
    hold_test_some_0_expected = hold_test_none_expected.tail ∧
      hold_test_none_expected.head? =
        some (.error (errUseBeforeSave "this_hold" 2 5 "start" "flow")) :=
  ⟨rfl, rfl⟩

end CsmlSpec
